import Mathlib

/-!
Verification development for the bulk arXiv metadata harvester and its local
partitioned record store (`src/daily_paper/nodes/fetch_papers_bulk_node.py`).

The embedding models:
* calendar dates and naive timestamps (`Date`, `DateTime`) with the canonical
  ISO-8601 serialization used by the source (`datetime.isoformat`, producing
  `YYYY-MM-DD` / `YYYY-MM-DDTHH:MM:SS`) and its inverse
  (`datetime.fromisoformat` / `pandas.to_datetime`, modelled on exactly those
  two canonical shapes, which are the shapes the harvester itself writes);
* the partitioned JSONL store `_LocalStore` (`append_records`, `read_range`);
* the checkpoint store `_Checkpoint` (`get_since` / `set_since`);
* the OAI client's per-page retry loop (`_OAIClient.list_records`);
* the orchestrator's sync cycle (`FetchPapersBulkNode._incremental_sync`),
  with the network and the filesystem's failure behaviour supplied as
  explicit input data.
-/

/-! ### Digits, zero-padded decimal formatting, and ISO-8601 parsing -/

/-- Numeric value of a decimal digit character (`ord(c) - ord('0')`). -/
def digitVal (c : Char) : Nat := c.toNat - 48

/-- Decimal-digit test on a character (code point between '0' and '9'). -/
def isDigitCh (c : Char) : Bool := decide (48 ≤ c.toNat ∧ c.toNat ≤ 57)

/-- Two-digit zero-padded decimal rendering, as a character list
(Python `f"{n:02d}"` for `n < 100`). -/
def fmt2chars (n : Nat) : List Char := [Nat.digitChar (n / 10), Nat.digitChar (n % 10)]

/-- Four-digit zero-padded decimal rendering, as a character list
(Python `f"{n:04d}"` for `n < 10000`). -/
def fmt4chars (n : Nat) : List Char :=
  [Nat.digitChar (n / 1000), Nat.digitChar (n / 100 % 10),
   Nat.digitChar (n / 10 % 10), Nat.digitChar (n % 10)]

/-- Value of a two-digit-character pair. -/
def dval2 (a b : Char) : Nat := digitVal a * 10 + digitVal b

/-- Value of a four-digit-character group. -/
def dval4 (a b c d : Char) : Nat :=
  ((digitVal a * 10 + digitVal b) * 10 + digitVal c) * 10 + digitVal d

/-- Gregorian leap-year rule (`calendar.isleap`, as used by `datetime`). -/
def isLeap (y : Nat) : Bool := y % 4 == 0 && (y % 100 != 0 || y % 400 == 0)

/-- Number of days in a month, as validated by `datetime.date`. -/
def daysInMonth (y m : Nat) : Nat :=
  if m = 2 then (if isLeap y then 29 else 28)
  else if m = 4 ∨ m = 6 ∨ m = 9 ∨ m = 11 then 30 else 31

/-- A calendar date (`datetime.date`): fields as stored by the source. -/
structure Date where
  year : Nat
  month : Nat
  day : Nat
deriving DecidableEq, Repr

/-- A naive timestamp (`datetime.datetime` at second precision, which is the
precision the harvester serializes). -/
structure DateTime where
  date : Date
  hour : Nat
  minute : Nat
  second : Nat
deriving DecidableEq, Repr

/-- Injective scalar encoding of a date; for in-range fields it orders dates
exactly like `datetime.date`'s field-lexicographic comparison. -/
def Date.scalar (d : Date) : Nat := d.year * 416 + d.month * 32 + d.day

/-- Scalar encoding of a timestamp; for in-range fields it orders timestamps
exactly like `datetime.datetime` comparison. -/
def DateTime.scalar (t : DateTime) : Nat :=
  ((t.date.scalar * 24 + t.hour) * 60 + t.minute) * 60 + t.second

instance : LE Date := ⟨fun a b => a.scalar ≤ b.scalar⟩
instance : LT Date := ⟨fun a b => a.scalar < b.scalar⟩
instance (a b : Date) : Decidable (a ≤ b) := inferInstanceAs (Decidable (a.scalar ≤ b.scalar))
instance (a b : Date) : Decidable (a < b) := inferInstanceAs (Decidable (a.scalar < b.scalar))
instance : LE DateTime := ⟨fun a b => a.scalar ≤ b.scalar⟩
instance : LT DateTime := ⟨fun a b => a.scalar < b.scalar⟩
instance (a b : DateTime) : Decidable (a ≤ b) := inferInstanceAs (Decidable (a.scalar ≤ b.scalar))
instance (a b : DateTime) : Decidable (a < b) := inferInstanceAs (Decidable (a.scalar < b.scalar))

/-- Range-validity of a date, exactly the ranges `datetime.date` accepts. -/
def Date.validB (d : Date) : Bool :=
  decide (1 ≤ d.year ∧ d.year ≤ 9999 ∧ 1 ≤ d.month ∧ d.month ≤ 12 ∧
          1 ≤ d.day ∧ d.day ≤ daysInMonth d.year d.month)

/-- Range-validity of a timestamp, exactly the ranges `datetime.datetime`
accepts (at second precision). -/
def DateTime.validB (t : DateTime) : Bool :=
  t.date.validB && decide (t.hour ≤ 23 ∧ t.minute ≤ 59 ∧ t.second ≤ 59)

/-- ISO serialization of a date (`date.isoformat()`): `YYYY-MM-DD`. -/
def Date.isoformat (d : Date) : String :=
  String.mk (fmt4chars d.year ++ '-' :: fmt2chars d.month ++ '-' :: fmt2chars d.day)

/-- ISO serialization of a timestamp (`datetime.isoformat()` at second
precision, microseconds zero): `YYYY-MM-DDTHH:MM:SS`. -/
def DateTime.isoformat (t : DateTime) : String :=
  String.mk (fmt4chars t.date.year ++ '-' :: fmt2chars t.date.month ++
    '-' :: fmt2chars t.date.day ++ 'T' :: fmt2chars t.hour ++
    ':' :: fmt2chars t.minute ++ ':' :: fmt2chars t.second)

/-- Validated construction of a timestamp from parsed components
(the range checks `datetime` performs; a four-digit year is at most 9999). -/
def mkDT (y m d h n s : Nat) : Option DateTime :=
  if 1 ≤ y ∧ 1 ≤ m ∧ m ≤ 12 ∧ 1 ≤ d ∧ d ≤ daysInMonth y m ∧
     h ≤ 23 ∧ n ≤ 59 ∧ s ≤ 59 then
    some ⟨⟨y, m, d⟩, h, n, s⟩
  else none

/-- Character-level ISO-8601 parser: accepts exactly the two canonical shapes
the source's serializer emits, `YYYY-MM-DD` (midnight) and
`YYYY-MM-DDTHH:MM:SS`.  Models `datetime.fromisoformat` (and
`pandas.to_datetime` at read time) restricted to that canonical domain;
anything else is a parse failure (`None` / `NaT`). -/
def parseChars : List Char → Option DateTime
  | [y1, y2, y3, y4, a, m1, m2, b, d1, d2] =>
    if a = '-' ∧ b = '-' ∧ ([y1, y2, y3, y4, m1, m2, d1, d2].all isDigitCh) = true then
      mkDT (dval4 y1 y2 y3 y4) (dval2 m1 m2) (dval2 d1 d2) 0 0 0
    else none
  | [y1, y2, y3, y4, a, m1, m2, b, d1, d2, c, h1, h2, e, n1, n2, f, s1, s2] =>
    if a = '-' ∧ b = '-' ∧ c = 'T' ∧ e = ':' ∧ f = ':' ∧
       ([y1, y2, y3, y4, m1, m2, d1, d2, h1, h2, n1, n2, s1, s2].all isDigitCh) = true then
      mkDT (dval4 y1 y2 y3 y4) (dval2 m1 m2) (dval2 d1 d2)
           (dval2 h1 h2) (dval2 n1 n2) (dval2 s1 s2)
    else none
  | _ => none

/-- String-level entry point of the ISO parser. -/
def parseDateTime (s : String) : Option DateTime := parseChars s.data

/-! ### Basic facts about digits and the parser -/

theorem digitChar_isDigitCh {n : Nat} (h : n ≤ 9) : isDigitCh (Nat.digitChar n) = true := by
  interval_cases n <;> decide

theorem digitVal_digitChar {n : Nat} (h : n ≤ 9) : digitVal (Nat.digitChar n) = n := by
  interval_cases n <;> decide

theorem isDigitCh_le {c : Char} (h : isDigitCh c = true) : digitVal c ≤ 9 := by
  simp only [isDigitCh, decide_eq_true_eq] at h
  simp only [digitVal]
  omega

/-- A parsed timestamp always satisfies the `datetime` range invariants. -/
theorem parseChars_valid {l : List Char} {t : DateTime}
    (h : parseChars l = some t) : t.validB = true := by
  have hmk : ∀ y m d hh nn ss, mkDT y m d hh nn ss = some t →
      y ≤ 9999 → t.validB = true := by
    intro y m d hh nn ss heq hy
    unfold mkDT at heq
    split at heq
    · rename_i hcond
      cases heq
      simp only [DateTime.validB, Date.validB, Bool.and_eq_true, decide_eq_true_eq]
      exact ⟨⟨hcond.1, hy, hcond.2.1, hcond.2.2.1, hcond.2.2.2.1, hcond.2.2.2.2.1⟩,
        hcond.2.2.2.2.2.1, hcond.2.2.2.2.2.2.1, hcond.2.2.2.2.2.2.2⟩
    · exact absurd heq (by simp)
  unfold parseChars at h
  split at h
  · rename_i y1 y2 y3 y4 a m1 m2 b d1 d2
    split at h
    · rename_i hcond
      have hdig := hcond.2.2
      simp only [List.all_cons, List.all_nil, Bool.and_eq_true] at hdig
      have h1 := isDigitCh_le hdig.1
      have h2 := isDigitCh_le hdig.2.1
      have h3 := isDigitCh_le hdig.2.2.1
      have h4 := isDigitCh_le hdig.2.2.2.1
      exact hmk _ _ _ _ _ _ h (by unfold dval4; omega)
    · exact absurd h (by simp)
  · rename_i y1 y2 y3 y4 a m1 m2 b d1 d2 c h1c h2c e n1 n2 f s1 s2
    split at h
    · rename_i hcond
      have hdig := hcond.2.2.2.2.2
      simp only [List.all_cons, List.all_nil, Bool.and_eq_true] at hdig
      have h1 := isDigitCh_le hdig.1
      have h2 := isDigitCh_le hdig.2.1
      have h3 := isDigitCh_le hdig.2.2.1
      have h4 := isDigitCh_le hdig.2.2.2.1
      exact hmk _ _ _ _ _ _ h (by unfold dval4; omega)
    · exact absurd h (by simp)
  · exact absurd h (by simp)

theorem parseDateTime_valid {s : String} {t : DateTime}
    (h : parseDateTime s = some t) : t.validB = true :=
  parseChars_valid h

/-- Round trip: parsing the serialized form of a valid timestamp recovers it.
This is the consistency the spec demands of the canonical timestamp format. -/
theorem parse_isoformat (t : DateTime) (hv : t.validB = true) :
    parseDateTime t.isoformat = some t := by
  obtain ⟨⟨y, m, d⟩, hh, nn, ss⟩ := t
  simp only [DateTime.validB, Date.validB, Bool.and_eq_true, decide_eq_true_eq] at hv
  obtain ⟨⟨hy1, hy2, hm1, hm2, hd1, hd2⟩, hh1, hn1, hs1⟩ := hv
  have hy3 : y / 1000 ≤ 9 := by omega
  have hy4 : y / 100 % 10 ≤ 9 := by omega
  have hy5 : y / 10 % 10 ≤ 9 := by omega
  have hy6 : y % 10 ≤ 9 := by omega
  have hma : m / 10 ≤ 9 := by omega
  have hmb : m % 10 ≤ 9 := by omega
  have hda : d / 10 ≤ 9 := by
    have : d ≤ 31 := by
      have : daysInMonth y m ≤ 31 := by
        unfold daysInMonth
        split
        · split <;> omega
        · split <;> omega
      omega
    omega
  have hdb : d % 10 ≤ 9 := by omega
  have hha : hh / 10 ≤ 9 := by omega
  have hhb : hh % 10 ≤ 9 := by omega
  have hna : nn / 10 ≤ 9 := by omega
  have hnb : nn % 10 ≤ 9 := by omega
  have hsa : ss / 10 ≤ 9 := by omega
  have hsb : ss % 10 ≤ 9 := by omega
  show parseChars _ = _
  simp only [DateTime.isoformat, fmt4chars, fmt2chars, List.cons_append, List.nil_append]
  have hall : ([Nat.digitChar (y / 1000), Nat.digitChar (y / 100 % 10),
      Nat.digitChar (y / 10 % 10), Nat.digitChar (y % 10), Nat.digitChar (m / 10),
      Nat.digitChar (m % 10), Nat.digitChar (d / 10), Nat.digitChar (d % 10),
      Nat.digitChar (hh / 10), Nat.digitChar (hh % 10), Nat.digitChar (nn / 10),
      Nat.digitChar (nn % 10), Nat.digitChar (ss / 10),
      Nat.digitChar (ss % 10)].all isDigitCh) = true := by
    simp [digitChar_isDigitCh, hy3, hy4, hy5, hy6, hma, hmb, hda, hdb,
      hha, hhb, hna, hnb, hsa, hsb]
  simp only [parseChars]
  rw [if_pos (by exact ⟨trivial, trivial, trivial, trivial, trivial, hall⟩)]
  unfold dval4 dval2
  rw [digitVal_digitChar hy3, digitVal_digitChar hy4, digitVal_digitChar hy5,
    digitVal_digitChar hy6, digitVal_digitChar hma, digitVal_digitChar hmb,
    digitVal_digitChar hda, digitVal_digitChar hdb, digitVal_digitChar hha,
    digitVal_digitChar hhb, digitVal_digitChar hna, digitVal_digitChar hnb,
    digitVal_digitChar hsa, digitVal_digitChar hsb]
  have ey : ((y / 1000 * 10 + y / 100 % 10) * 10 + y / 10 % 10) * 10 + y % 10 = y := by omega
  have em : m / 10 * 10 + m % 10 = m := by omega
  have ed : d / 10 * 10 + d % 10 = d := by omega
  have eh : hh / 10 * 10 + hh % 10 = hh := by omega
  have en : nn / 10 * 10 + nn % 10 = nn := by omega
  have es : ss / 10 * 10 + ss % 10 = ss := by omega
  rw [ey, em, ed, eh, en, es]
  unfold mkDT
  rw [if_pos ⟨hy1, hm1, hm2, hd1, hd2, hh1, hn1, hs1⟩]

/-! ### Records and the partitioned local store (`_LocalStore`) -/

/-- The fields of a harvested record dict that the store logic inspects:
`arxiv_id` and `updated` (either may be absent / `None`), plus the rest of the
serialized payload, which the store carries through untouched. -/
structure Rec where
  arxiv_id : Option String
  updated : Option String
  payload : String := ""
deriving DecidableEq, Repr

/-- The `updated` string used for index comparisons:
`obj.get("updated") or ""`. -/
def Rec.updatedStr (r : Rec) : String := r.updated.getD ""

/-- Python string comparison `a < b`: code-point lexicographic order,
i.e. the lexicographic order on the character lists. -/
def strLt (a b : String) : Prop := a.data < b.data

/-- Python string comparison `a <= b`. -/
def strLe (a b : String) : Prop := a.data ≤ b.data

instance (a b : String) : Decidable (strLt a b) :=
  inferInstanceAs (Decidable (a.data < b.data))

instance (a b : String) : Decidable (strLe a b) :=
  inferInstanceAs (Decidable (a.data ≤ b.data))

/-- Month partition key (`_month_key`): `f"{year:04d}{month:02d}"`. -/
def monthKey (y m : Nat) : String := String.mk (fmt4chars y ++ fmt2chars m)

/-- Partition key assigned to a record by `append_records`'s bucketing step:
parse `updated` with `datetime.fromisoformat` (failures and missing values
give the `"unknown"` partition), else the month key of its date. -/
def monthKeyOfUpdated (u : Option String) : String :=
  match u with
  | none => "unknown"
  | some s =>
    match parseDateTime s with
    | none => "unknown"
    | some t => monthKey t.date.year t.date.month

/-- A partition index (`index.json`): an insertion-ordered map from id to the
last-seen `updated` string, modelling the Python dict. -/
abbrev Index := List (String × String)

/-- Dict lookup (`index.get(arxiv_id)`). -/
def idxGet : Index → String → Option String
  | [], _ => none
  | (a, b) :: t, k => if a = k then some b else idxGet t k

/-- Dict update (`index[arxiv_id] = updated`): replace in place or append. -/
def idxSet : Index → String → String → Index
  | [], k, v => [(k, v)]
  | (a, b) :: t, k, v => if a = k then (a, v) :: t else (a, b) :: idxSet t k v

/-- The whole on-disk store: per-partition data file contents (list of record
lines) and per-partition index, both keyed by partition key. -/
@[ext] structure StoreState where
  file : String → List Rec
  index : String → Index

/-- A store with no partitions written yet. -/
def emptyStore : StoreState := ⟨fun _ => [], fun _ => []⟩

/-- Intermediate state while appending into one partition: the data file, the
index, and the `appended` counter. -/
structure PartState where
  file : List Rec
  index : Index
  appended : Nat
deriving DecidableEq, Repr

/-- The body of `append_records`'s inner per-record loop: skip a falsy
`arxiv_id`; skip when the index holds a same-or-newer `updated` string
(lexicographic comparison, `prev >= updated`); otherwise append the line,
record the id in the index and bump the counter. -/
def appendStep (st : PartState) (obj : Rec) : PartState :=
  match obj.arxiv_id with
  | none => st
  | some id =>
    if id = "" then st
    else
      match idxGet st.index id with
      | none => ⟨st.file ++ [obj], idxSet st.index id obj.updatedStr, st.appended + 1⟩
      | some prev =>
        if strLe obj.updatedStr prev then st
        else ⟨st.file ++ [obj], idxSet st.index id obj.updatedStr, st.appended + 1⟩

/-- Appending a batch of same-partition records into one partition
(the `for obj in items` loop). -/
def appendToPartition (file : List Rec) (index : Index) (items : List Rec) : PartState :=
  items.foldl appendStep ⟨file, index, 0⟩

/-- Insert a record into the bucket for key `k`, preserving dict key insertion
order (`buckets.setdefault(key, []).append(r)`). -/
def addToBucket : List (String × List Rec) → String → Rec → List (String × List Rec)
  | [], k, r => [(k, [r])]
  | (a, l) :: t, k, r =>
    if a = k then (a, l ++ [r]) :: t else (a, l) :: addToBucket t k r

/-- Bucketing phase of `append_records`: group the input rows by partition
key, in dict insertion order. -/
def buckets (rows : List Rec) : List (String × List Rec) :=
  rows.foldl (fun bs r => addToBucket bs (monthKeyOfUpdated r.updated) r) []

/-- Apply one bucket's append to the store (open the partition file, run the
per-record loop, store the resulting file and index; the index rewrite is a
no-op on contents when nothing was appended). -/
def applyBucket (s : StoreState) (k : String) (items : List Rec) : StoreState :=
  let r := appendToPartition (s.file k) (s.index k) items
  ⟨fun m => if m = k then r.file else s.file m,
   fun m => if m = k then r.index else s.index m⟩

/-- `_LocalStore.append_records`: bucket the rows by `updated` month, then
run the per-partition dedup-append loop on each bucket. -/
def appendRecords (s : StoreState) (rows : List Rec) : StoreState :=
  (buckets rows).foldl (fun st b => applyBucket st b.1 b.2) s

/-! ### C1: per-record append/dedup decision -/

/-- C1: in `append_records`, a record carrying a non-empty id is written as a
new line to its partition's data file — and its index entry set to the
record's `updated` string — exactly when its id is absent from the partition
index at the moment it is processed, or its `updated` string is strictly
greater than the indexed value; otherwise the processing step leaves the
file, the index and the appended counter untouched. -/
theorem append_decision_iff (st : PartState) (r : Rec) (id : String)
    (hid : r.arxiv_id = some id) (hne : id ≠ "") :
    ((idxGet st.index id = none ∨
        (∃ prev, idxGet st.index id = some prev ∧ strLt prev r.updatedStr)) →
      appendStep st r =
        ⟨st.file ++ [r], idxSet st.index id r.updatedStr, st.appended + 1⟩) ∧
    (∀ prev, idxGet st.index id = some prev → strLe r.updatedStr prev →
      appendStep st r = st) := by
  constructor
  · intro h
    unfold appendStep
    rw [hid]
    simp only [if_neg hne]
    rcases h with h | ⟨prev, hprev, hlt⟩
    · simp only [h]
    · simp only [hprev]
      rw [if_neg (by simpa [strLe, strLt, not_le] using hlt)]
  · intro prev hprev hle
    unfold appendStep
    rw [hid]
    simp only [if_neg hne, hprev]
    rw [if_pos hle]

/-- Witness for C1 at a concrete store state and record: the id is indexed
with an older `updated`, so the record is appended and re-indexed. -/
theorem append_decision_iff_witness :
    appendStep ⟨[], [("2401.00001", "2024-01-05T00:00:00")], 0⟩
        ⟨some "2401.00001", some "2024-01-06T00:00:00", ""⟩ =
      ⟨[⟨some "2401.00001", some "2024-01-06T00:00:00", ""⟩],
       [("2401.00001", "2024-01-06T00:00:00")], 1⟩ :=
  (append_decision_iff ⟨[], [("2401.00001", "2024-01-05T00:00:00")], 0⟩
      ⟨some "2401.00001", some "2024-01-06T00:00:00", ""⟩ "2401.00001" rfl
      (by decide)).1
    (Or.inr ⟨"2024-01-05T00:00:00", by decide, by decide⟩)

/-! ### Bucketing and per-partition characterization of `append_records` -/

/-- Look up a bucket's contents by key (empty when absent). -/
def getBucket : List (String × List Rec) → String → List Rec
  | [], _ => []
  | (a, l) :: t, k => if a = k then l else getBucket t k

/-- Keys of the bucket list, in insertion order. -/
def bucketKeys (bs : List (String × List Rec)) : List String := bs.map Prod.fst

theorem getBucket_addToBucket (bs : List (String × List Rec)) (k' k : String) (r : Rec) :
    getBucket (addToBucket bs k' r) k = getBucket bs k ++ (if k' = k then [r] else []) := by
  induction bs with
  | nil => by_cases h : k' = k <;> simp [addToBucket, getBucket, h]
  | cons p t ih =>
    obtain ⟨a, l⟩ := p
    by_cases h1 : a = k'
    · subst h1
      by_cases h2 : a = k <;> simp [addToBucket, getBucket, h2]
    · by_cases h2 : a = k
      · subst h2
        have hk : k' ≠ a := fun h => h1 h.symm
        simp [addToBucket, getBucket, h1, hk]
      · simp [addToBucket, getBucket, h1, h2, ih]

theorem bucketKeys_addToBucket (bs : List (String × List Rec)) (k : String) (r : Rec) :
    bucketKeys (addToBucket bs k r) =
      if k ∈ bucketKeys bs then bucketKeys bs else bucketKeys bs ++ [k] := by
  induction bs with
  | nil => simp [addToBucket, bucketKeys]
  | cons p t ih =>
    obtain ⟨a, l⟩ := p
    by_cases h1 : a = k
    · subst h1; simp [addToBucket, bucketKeys]
    · have hk : k ≠ a := fun h => h1 h.symm
      by_cases h2 : k ∈ bucketKeys t
      · have h2' : k ∈ List.map Prod.fst t := h2
        simp [addToBucket, bucketKeys, h1, hk, h2']
        simpa [bucketKeys, h2'] using ih
      · have h2' : k ∉ List.map Prod.fst t := h2
        simp [addToBucket, bucketKeys, h1, hk, h2']
        simpa [bucketKeys, h2'] using ih

theorem nodup_addToBucket {bs : List (String × List Rec)} {k : String} {r : Rec}
    (h : (bucketKeys bs).Nodup) : (bucketKeys (addToBucket bs k r)).Nodup := by
  rw [bucketKeys_addToBucket]
  split
  · exact h
  · rename_i hnot
    simp [List.nodup_append, h, hnot]

theorem nodup_buckets_aux (rows : List Rec) :
    ∀ acc, (bucketKeys acc).Nodup →
      (bucketKeys (rows.foldl
        (fun bs r => addToBucket bs (monthKeyOfUpdated r.updated) r) acc)).Nodup := by
  induction rows with
  | nil => intro acc h; exact h
  | cons r t ih => intro acc h; exact ih _ (nodup_addToBucket h)

theorem nodup_buckets (rows : List Rec) : (bucketKeys (buckets rows)).Nodup :=
  nodup_buckets_aux rows [] (by simp [bucketKeys])

/-- Membership of a row in the bucket of key `k`, as a filter. -/
def partFilter (rows : List Rec) (k : String) : List Rec :=
  rows.filter (fun r => decide (monthKeyOfUpdated r.updated = k))

theorem getBucket_buckets_aux (k : String) (rows : List Rec) :
    ∀ acc, getBucket (rows.foldl
        (fun bs r => addToBucket bs (monthKeyOfUpdated r.updated) r) acc) k =
      getBucket acc k ++ partFilter rows k := by
  induction rows with
  | nil => intro acc; simp [partFilter]
  | cons r t ih =>
    intro acc
    simp only [List.foldl_cons]
    rw [ih, getBucket_addToBucket]
    by_cases h : monthKeyOfUpdated r.updated = k
    · simp [partFilter, List.filter_cons, h]
    · simp [partFilter, List.filter_cons, h]

theorem getBucket_buckets (rows : List Rec) (k : String) :
    getBucket (buckets rows) k = partFilter rows k := by
  have := getBucket_buckets_aux k rows []
  simpa [buckets, getBucket] using this

theorem foldl_applyBucket_untouched (bs : List (String × List Rec)) (s : StoreState)
    (k : String) (h : k ∉ bucketKeys bs) :
    (bs.foldl (fun st b => applyBucket st b.1 b.2) s).file k = s.file k ∧
    (bs.foldl (fun st b => applyBucket st b.1 b.2) s).index k = s.index k := by
  induction bs generalizing s with
  | nil => exact ⟨rfl, rfl⟩
  | cons p t ih =>
    obtain ⟨a, l⟩ := p
    have hka : k ≠ a := by
      intro hk; exact h (by simp [bucketKeys, hk])
    have ht : k ∉ bucketKeys t := by
      intro hk; exact h (by simp [bucketKeys] at hk ⊢; right; exact hk)
    simp only [List.foldl_cons]
    have := ih (applyBucket s a l) ht
    rw [this.1, this.2]
    constructor <;> simp [applyBucket, hka]

theorem foldl_applyBucket_char (bs : List (String × List Rec)) (s : StoreState)
    (k : String) (hnd : (bucketKeys bs).Nodup) :
    (bs.foldl (fun st b => applyBucket st b.1 b.2) s).file k =
      (appendToPartition (s.file k) (s.index k) (getBucket bs k)).file ∧
    (bs.foldl (fun st b => applyBucket st b.1 b.2) s).index k =
      (appendToPartition (s.file k) (s.index k) (getBucket bs k)).index := by
  induction bs generalizing s with
  | nil => exact ⟨rfl, rfl⟩
  | cons p t ih =>
    obtain ⟨a, l⟩ := p
    simp only [bucketKeys, List.map_cons, List.nodup_cons] at hnd
    obtain ⟨ha, hndt⟩ := hnd
    simp only [List.foldl_cons]
    by_cases hk : k = a
    · subst hk
      have hunt := foldl_applyBucket_untouched t (applyBucket s k l) k (by exact ha)
      rw [hunt.1, hunt.2]
      simp [applyBucket, getBucket]
    · have := ih (applyBucket s a l) hndt
      rw [this.1, this.2]
      have h1 : (applyBucket s a l).file k = s.file k := by simp [applyBucket, hk]
      have h2 : (applyBucket s a l).index k = s.index k := by simp [applyBucket, hk]
      have hak : a ≠ k := fun h => hk h.symm
      rw [h1, h2]
      simp [getBucket, hak]

/-- Per-partition characterization of `append_records`: the partition `k`
after a call is exactly the per-record loop run on the rows whose bucket
key is `k`, independent of all other partitions. -/
theorem appendRecords_char (s : StoreState) (rows : List Rec) (k : String) :
    (appendRecords s rows).file k =
      (appendToPartition (s.file k) (s.index k) (partFilter rows k)).file ∧
    (appendRecords s rows).index k =
      (appendToPartition (s.file k) (s.index k) (partFilter rows k)).index := by
  have := foldl_applyBucket_char (buckets rows) s k (nodup_buckets rows)
  rwa [getBucket_buckets] at this

/-! ### Index monotonicity and the dedup properties -/

theorem idxGet_idxSet (i : Index) (k k' : String) (v : String) :
    idxGet (idxSet i k v) k' = if k' = k then some v else idxGet i k' := by
  induction i with
  | nil =>
    by_cases h : k' = k
    · simp [idxSet, idxGet, h]
    · have h2 : ¬ k = k' := fun hh => h hh.symm
      simp [idxSet, idxGet, h, h2]
  | cons p t ih =>
    obtain ⟨a, b⟩ := p
    simp only [idxSet]
    by_cases h1 : a = k
    · rw [if_pos h1]
      by_cases h2 : k' = k
      · have h3 : a = k' := by rw [h1, h2]
        simp [idxGet, h3, h2]
      · have h3 : ¬ a = k' := by rw [h1]; exact fun hh => h2 hh.symm
        simp [idxGet, h3, h2]
    · rw [if_neg h1]
      simp only [idxGet]
      by_cases h3 : a = k'
      · have h4 : ¬ k' = k := by rw [← h3]; exact fun hh => h1 hh
        simp [h3, h4]
      · simp [h3, ih]

theorem strLe_refl (a : String) : strLe a a := le_refl a.data

theorem strLe_trans {a b c : String} (h1 : strLe a b) (h2 : strLe b c) : strLe a c :=
  le_trans h1 h2

theorem strLe_of_strLt {a b : String} (h : strLt a b) : strLe a b := le_of_lt h

theorem strLt_of_not_strLe {a b : String} (h : ¬ strLe a b) : strLt b a := not_le.mp h

/-- One `appendStep` never decreases an existing index entry. -/
theorem appendStep_index_mono (st : PartState) (r : Rec) (id v : String)
    (h : idxGet st.index id = some v) :
    ∃ v', idxGet (appendStep st r).index id = some v' ∧ strLe v v' := by
  unfold appendStep
  match hr : r.arxiv_id with
  | none => exact ⟨v, h, strLe_refl v⟩
  | some id' =>
    by_cases hne : id' = ""
    · simp only [if_pos hne]
      exact ⟨v, h, strLe_refl v⟩
    · simp only [if_neg hne]
      match hg : idxGet st.index id' with
      | none =>
        refine ⟨v, ?_, strLe_refl v⟩
        simp only [idxGet_idxSet]
        have : id ≠ id' := by
          intro hh; rw [hh, hg] at h; exact absurd h (by simp)
        rw [if_neg this]
        exact h
      | some prev =>
        by_cases hle : strLe r.updatedStr prev
        · simp only [if_pos hle]
          exact ⟨v, h, strLe_refl v⟩
        · simp only [if_neg hle]
          by_cases hid : id = id'
          · subst hid
            rw [hg] at h
            cases h
            refine ⟨r.updatedStr, ?_, strLe_of_strLt (strLt_of_not_strLe hle)⟩
            simp [idxGet_idxSet]
          · refine ⟨v, ?_, strLe_refl v⟩
            simp only [idxGet_idxSet]
            rw [if_neg hid]
            exact h

/-- Folding `appendStep` over a batch never decreases an existing index
entry. -/
theorem foldl_appendStep_index_mono (items : List Rec) (st : PartState)
    (id v : String) (h : idxGet st.index id = some v) :
    ∃ v', idxGet ((items.foldl appendStep st).index) id = some v' ∧ strLe v v' := by
  induction items generalizing st v with
  | nil => exact ⟨v, h, strLe_refl v⟩
  | cons x t ih =>
    obtain ⟨v1, hv1, hle1⟩ := appendStep_index_mono st x id v h
    obtain ⟨v2, hv2, hle2⟩ := ih (appendStep st x) v1 hv1
    exact ⟨v2, hv2, strLe_trans hle1 hle2⟩

/-- After the per-partition loop, each processed record's id (when non-falsy)
is indexed with a value at least its own `updated` string. -/
theorem foldl_appendStep_dominates (items : List Rec) (st : PartState)
    (r : Rec) (id : String) (hmem : r ∈ items) (hid : r.arxiv_id = some id)
    (hne : id ≠ "") :
    ∃ v, idxGet ((items.foldl appendStep st).index) id = some v ∧
      strLe r.updatedStr v := by
  induction items generalizing st with
  | nil => cases hmem
  | cons x t ih =>
    rcases List.mem_cons.mp hmem with hx | hx
    · subst hx
      have hstep : ∃ v0, idxGet (appendStep st r).index id = some v0 ∧
          strLe r.updatedStr v0 := by
        unfold appendStep
        rw [hid]
        simp only [if_neg hne]
        match hg : idxGet st.index id with
        | none =>
          refine ⟨r.updatedStr, ?_, strLe_refl _⟩
          simp [idxGet_idxSet]
        | some prev =>
          by_cases hle : strLe r.updatedStr prev
          · simp only [if_pos hle]
            exact ⟨prev, hg, hle⟩
          · simp only [if_neg hle]
            refine ⟨r.updatedStr, ?_, strLe_refl _⟩
            simp [idxGet_idxSet]
      obtain ⟨v0, hv0, hle0⟩ := hstep
      obtain ⟨v, hv, hle⟩ := foldl_appendStep_index_mono t (appendStep st r) id v0 hv0
      exact ⟨v, by simpa using hv, strLe_trans hle0 hle⟩
    · exact (by simpa using ih (appendStep st x) hx : _)

/-- If every record of a batch is already dominated by the index, the
per-partition loop is a no-op. -/
theorem foldl_appendStep_noop (items : List Rec) (st : PartState)
    (h : ∀ r ∈ items, ∀ id, r.arxiv_id = some id → id ≠ "" →
      ∃ v, idxGet st.index id = some v ∧ strLe r.updatedStr v) :
    items.foldl appendStep st = st := by
  induction items with
  | nil => rfl
  | cons x t ih =>
    have hx : appendStep st x = st := by
      unfold appendStep
      match hr : x.arxiv_id with
      | none => rfl
      | some id =>
        by_cases hne : id = ""
        · simp [hne]
        · obtain ⟨v, hv, hle⟩ := h x (by simp) id hr hne
          simp only [if_neg hne, hv, if_pos hle]
    simp only [List.foldl_cons, hx]
    exact ih (fun r hr => h r (List.mem_cons_of_mem x hr))

/-- Evaluation of one step when the id is fresh to the index. -/
theorem appendStep_new (st : PartState) (r : Rec) (id : String)
    (hid : r.arxiv_id = some id) (hne : id ≠ "")
    (hg : idxGet st.index id = none) :
    appendStep st r =
      ⟨st.file ++ [r], idxSet st.index id r.updatedStr, st.appended + 1⟩ := by
  unfold appendStep
  rw [hid]
  simp only [if_neg hne, hg]

/-- Evaluation of one step when the indexed value is strictly older. -/
theorem appendStep_newer (st : PartState) (r : Rec) (id prev : String)
    (hid : r.arxiv_id = some id) (hne : id ≠ "")
    (hg : idxGet st.index id = some prev) (hlt : strLt prev r.updatedStr) :
    appendStep st r =
      ⟨st.file ++ [r], idxSet st.index id r.updatedStr, st.appended + 1⟩ := by
  unfold appendStep
  rw [hid]
  simp only [if_neg hne, hg]
  rw [if_neg (by simpa [strLe, strLt, not_le] using hlt)]

/-- Evaluation of one step when the indexed value is same-or-newer. -/
theorem appendStep_stale (st : PartState) (r : Rec) (id prev : String)
    (hid : r.arxiv_id = some id) (hne : id ≠ "")
    (hg : idxGet st.index id = some prev) (hle : strLe r.updatedStr prev) :
    appendStep st r = st := by
  unfold appendStep
  rw [hid]
  simp only [if_neg hne, hg]
  rw [if_pos hle]

/-- Evaluation of one step on a record with a falsy id. -/
theorem appendStep_blank (st : PartState) (r : Rec)
    (h : r.arxiv_id = none ∨ r.arxiv_id = some "") : appendStep st r = st := by
  rcases h with h | h <;> simp [appendStep, h]

/-! ### C2: idempotent append -/

/-- C2: appending the same list of records twice leaves every partition's
data file and index exactly as they were after the first call — the second
call appends nothing and changes no index entry. -/
theorem appendRecords_idempotent (s : StoreState) (rows : List Rec) :
    appendRecords (appendRecords s rows) rows = appendRecords s rows := by
  have key : ∀ k,
      (appendRecords (appendRecords s rows) rows).file k =
        (appendRecords s rows).file k ∧
      (appendRecords (appendRecords s rows) rows).index k =
        (appendRecords s rows).index k := by
    intro k
    have h1 := appendRecords_char s rows k
    have h2 := appendRecords_char (appendRecords s rows) rows k
    have hdom : ∀ r ∈ partFilter rows k, ∀ id, r.arxiv_id = some id → id ≠ "" →
        ∃ v, idxGet (appendToPartition (s.file k) (s.index k)
              (partFilter rows k)).index id = some v ∧ strLe r.updatedStr v := by
      intro r hr id hid hne
      exact foldl_appendStep_dominates (partFilter rows k)
        ⟨s.file k, s.index k, 0⟩ r id hr hid hne
    have hnoop :
        appendToPartition
          (appendToPartition (s.file k) (s.index k) (partFilter rows k)).file
          (appendToPartition (s.file k) (s.index k) (partFilter rows k)).index
          (partFilter rows k) =
        ⟨(appendToPartition (s.file k) (s.index k) (partFilter rows k)).file,
         (appendToPartition (s.file k) (s.index k) (partFilter rows k)).index,
         0⟩ :=
      foldl_appendStep_noop _ _ hdom
    refine ⟨?_, ?_⟩
    · rw [h2.1, h1.1, h1.2, hnoop]
    · rw [h2.2, h1.1, h1.2, hnoop]
  apply StoreState.ext
  · funext k; exact (key k).1
  · funext k; exact (key k).2

/-! ### C10: records without a usable id are skipped silently -/

/-- C10: a record whose `arxiv_id` is missing, `None` or empty contributes
nothing to `append_records`: removing it from the batch yields exactly the
same store state (no line written, no index entry touched), while the rest
of the batch is processed unchanged; the function is total, so no error is
raised for such a record. -/
theorem appendRecords_skips_blank_id (s : StoreState) (pre post : List Rec)
    (r : Rec) (h : r.arxiv_id = none ∨ r.arxiv_id = some "") :
    appendRecords s (pre ++ r :: post) = appendRecords s (pre ++ post) := by
  have key : ∀ k,
      partFilter (pre ++ r :: post) k = partFilter pre k ++ partFilter post k ∨
      partFilter (pre ++ r :: post) k =
        partFilter pre k ++ r :: partFilter post k := by
    intro k
    by_cases hk : monthKeyOfUpdated r.updated = k
    · right; simp [partFilter, List.filter_append, List.filter_cons, hk]
    · left; simp [partFilter, List.filter_append, List.filter_cons, hk]
  have hplain : ∀ k, partFilter (pre ++ post) k =
      partFilter pre k ++ partFilter post k := by
    intro k; simp [partFilter, List.filter_append]
  have hpart : ∀ k,
      appendToPartition (s.file k) (s.index k) (partFilter (pre ++ r :: post) k) =
      appendToPartition (s.file k) (s.index k) (partFilter (pre ++ post) k) := by
    intro k
    rcases key k with hk | hk
    · rw [hk, hplain]
    · rw [hk, hplain]
      unfold appendToPartition
      rw [List.foldl_append, List.foldl_append, List.foldl_cons,
        appendStep_blank _ _ h]
  apply StoreState.ext
  · funext k
    rw [(appendRecords_char s (pre ++ r :: post) k).1,
      (appendRecords_char s (pre ++ post) k).1, hpart]
  · funext k
    rw [(appendRecords_char s (pre ++ r :: post) k).2,
      (appendRecords_char s (pre ++ post) k).2, hpart]

/-- Witness for C10: a batch containing a `None`-id record gives the same
store as the batch with that record removed. -/
theorem appendRecords_skips_blank_id_witness :
    appendRecords emptyStore
        ([⟨some "2401.00001", some "2024-01-05T00:00:00", ""⟩] ++
          ⟨none, some "2024-01-05T00:00:00", ""⟩ ::
            [⟨some "2401.00002", some "2024-01-07T00:00:00", ""⟩]) =
      appendRecords emptyStore
        ([⟨some "2401.00001", some "2024-01-05T00:00:00", ""⟩] ++
          [⟨some "2401.00002", some "2024-01-07T00:00:00", ""⟩]) :=
  appendRecords_skips_blank_id emptyStore
    [⟨some "2401.00001", some "2024-01-05T00:00:00", ""⟩]
    [⟨some "2401.00002", some "2024-01-07T00:00:00", ""⟩]
    ⟨none, some "2024-01-05T00:00:00", ""⟩ (Or.inl rfl)

/-! ### C3: dedup across orders -/

/-- C3 counterexample: appending the t1 version and then the t2 version of
the same id (t1 < t2) in one `append_records` call leaves BOTH lines in the
partition's data file — the file is append-only, so it does not retain only
the t2 version. -/
theorem dedup_retains_old_line_counterexample :
    (appendRecords emptyStore
        [⟨some "2401.00001", some "2024-01-05T00:00:00", ""⟩,
         ⟨some "2401.00001", some "2024-01-06T00:00:00", ""⟩]).file "202401" =
      [⟨some "2401.00001", some "2024-01-05T00:00:00", ""⟩,
       ⟨some "2401.00001", some "2024-01-06T00:00:00", ""⟩] := by
  decide

/-- C3 amended: for two records sharing a non-empty id with `updated`
strings t1 < t2 in the same month partition, appending them in either order
— in one call or across two calls — always leaves the index holding t2, and
the data file always ends with the t2 line; when t2 is processed first the
t1 version is never appended (only the t2 line is added), but when t1 is
processed first its line remains in the append-only file beneath the t2
line. -/
theorem dedup_both_orders (s : StoreState) (id t1 t2 k p1 p2 : String)
    (hne : id ≠ "") (hlt : strLt t1 t2)
    (hk1 : monthKeyOfUpdated (some t1) = k)
    (hk2 : monthKeyOfUpdated (some t2) = k)
    (hfresh : idxGet (s.index k) id = none) :
    ((appendRecords s [⟨some id, some t1, p1⟩, ⟨some id, some t2, p2⟩]).file k =
        s.file k ++ [⟨some id, some t1, p1⟩, ⟨some id, some t2, p2⟩] ∧
      idxGet ((appendRecords s [⟨some id, some t1, p1⟩,
        ⟨some id, some t2, p2⟩]).index k) id = some t2) ∧
    ((appendRecords s [⟨some id, some t2, p2⟩, ⟨some id, some t1, p1⟩]).file k =
        s.file k ++ [⟨some id, some t2, p2⟩] ∧
      idxGet ((appendRecords s [⟨some id, some t2, p2⟩,
        ⟨some id, some t1, p1⟩]).index k) id = some t2) ∧
    ((appendRecords (appendRecords s [⟨some id, some t1, p1⟩])
          [⟨some id, some t2, p2⟩]).file k =
        s.file k ++ [⟨some id, some t1, p1⟩, ⟨some id, some t2, p2⟩] ∧
      idxGet ((appendRecords (appendRecords s [⟨some id, some t1, p1⟩])
        [⟨some id, some t2, p2⟩]).index k) id = some t2) ∧
    ((appendRecords (appendRecords s [⟨some id, some t2, p2⟩])
          [⟨some id, some t1, p1⟩]).file k =
        s.file k ++ [⟨some id, some t2, p2⟩] ∧
      idxGet ((appendRecords (appendRecords s [⟨some id, some t2, p2⟩])
        [⟨some id, some t1, p1⟩]).index k) id = some t2) := by
  have hr1 : (⟨some id, some t1, p1⟩ : Rec).updatedStr = t1 := rfl
  have hr2 : (⟨some id, some t2, p2⟩ : Rec).updatedStr = t2 := rfl
  have hle12 : strLe t1 t2 := strLe_of_strLt hlt
  have hf1 : partFilter [(⟨some id, some t1, p1⟩ : Rec),
      ⟨some id, some t2, p2⟩] k = [⟨some id, some t1, p1⟩, ⟨some id, some t2, p2⟩] := by
    simp [partFilter, List.filter_cons, hk1, hk2]
  have hf2 : partFilter [(⟨some id, some t2, p2⟩ : Rec),
      ⟨some id, some t1, p1⟩] k = [⟨some id, some t2, p2⟩, ⟨some id, some t1, p1⟩] := by
    simp [partFilter, List.filter_cons, hk1, hk2]
  have hf3 : partFilter [(⟨some id, some t1, p1⟩ : Rec)] k =
      [⟨some id, some t1, p1⟩] := by
    simp [partFilter, List.filter_cons, hk1]
  have hf4 : partFilter [(⟨some id, some t2, p2⟩ : Rec)] k =
      [⟨some id, some t2, p2⟩] := by
    simp [partFilter, List.filter_cons, hk2]
  -- one-call, t1 first
  have hA := appendRecords_char s
    [(⟨some id, some t1, p1⟩ : Rec), ⟨some id, some t2, p2⟩] k
  rw [hf1] at hA
  have hA1 : appendToPartition (s.file k) (s.index k)
      [(⟨some id, some t1, p1⟩ : Rec), ⟨some id, some t2, p2⟩] =
      ⟨s.file k ++ [⟨some id, some t1, p1⟩] ++ [⟨some id, some t2, p2⟩],
       idxSet (idxSet (s.index k) id t1) id t2, 2⟩ := by
    unfold appendToPartition
    rw [List.foldl_cons,
      appendStep_new ⟨s.file k, s.index k, 0⟩ _ id rfl hne hfresh]
    rw [List.foldl_cons, appendStep_newer _ _ id t1 rfl hne
      (by rw [idxGet_idxSet]; simp [Rec.updatedStr]) (by exact hlt)]
    rfl
  -- one-call, t2 first
  have hB := appendRecords_char s
    [(⟨some id, some t2, p2⟩ : Rec), ⟨some id, some t1, p1⟩] k
  rw [hf2] at hB
  have hB1 : appendToPartition (s.file k) (s.index k)
      [(⟨some id, some t2, p2⟩ : Rec), ⟨some id, some t1, p1⟩] =
      ⟨s.file k ++ [⟨some id, some t2, p2⟩], idxSet (s.index k) id t2, 1⟩ := by
    unfold appendToPartition
    rw [List.foldl_cons,
      appendStep_new ⟨s.file k, s.index k, 0⟩ _ id rfl hne hfresh]
    rw [List.foldl_cons, appendStep_stale _ _ id t2 rfl hne
      (by rw [idxGet_idxSet]; simp [Rec.updatedStr]) (by exact hle12)]
    rfl
  -- single-record calls
  have hC := appendRecords_char s [(⟨some id, some t1, p1⟩ : Rec)] k
  rw [hf3] at hC
  have hC1 : appendToPartition (s.file k) (s.index k)
      [(⟨some id, some t1, p1⟩ : Rec)] =
      ⟨s.file k ++ [⟨some id, some t1, p1⟩], idxSet (s.index k) id t1, 1⟩ := by
    unfold appendToPartition
    rw [List.foldl_cons,
      appendStep_new ⟨s.file k, s.index k, 0⟩ _ id rfl hne hfresh]
    rfl
  have hD := appendRecords_char s [(⟨some id, some t2, p2⟩ : Rec)] k
  rw [hf4] at hD
  have hD1 : appendToPartition (s.file k) (s.index k)
      [(⟨some id, some t2, p2⟩ : Rec)] =
      ⟨s.file k ++ [⟨some id, some t2, p2⟩], idxSet (s.index k) id t2, 1⟩ := by
    unfold appendToPartition
    rw [List.foldl_cons,
      appendStep_new ⟨s.file k, s.index k, 0⟩ _ id rfl hne hfresh]
    rfl
  -- two-call, t1 then t2
  have hE := appendRecords_char (appendRecords s [(⟨some id, some t1, p1⟩ : Rec)])
    [(⟨some id, some t2, p2⟩ : Rec)] k
  rw [hf4] at hE
  have hE1 : appendToPartition
      ((appendRecords s [(⟨some id, some t1, p1⟩ : Rec)]).file k)
      ((appendRecords s [(⟨some id, some t1, p1⟩ : Rec)]).index k)
      [(⟨some id, some t2, p2⟩ : Rec)] =
      ⟨s.file k ++ [⟨some id, some t1, p1⟩] ++ [⟨some id, some t2, p2⟩],
       idxSet (idxSet (s.index k) id t1) id t2, 1⟩ := by
    rw [hC.1, hC.2, hC1]
    unfold appendToPartition
    rw [List.foldl_cons, appendStep_newer _ _ id t1 rfl hne
      (by rw [idxGet_idxSet]; simp) (by exact hlt)]
    rfl
  -- two-call, t2 then t1
  have hF := appendRecords_char (appendRecords s [(⟨some id, some t2, p2⟩ : Rec)])
    [(⟨some id, some t1, p1⟩ : Rec)] k
  rw [hf3] at hF
  have hF1 : appendToPartition
      ((appendRecords s [(⟨some id, some t2, p2⟩ : Rec)]).file k)
      ((appendRecords s [(⟨some id, some t2, p2⟩ : Rec)]).index k)
      [(⟨some id, some t1, p1⟩ : Rec)] =
      ⟨s.file k ++ [⟨some id, some t2, p2⟩], idxSet (s.index k) id t2, 0⟩ := by
    rw [hD.1, hD.2, hD1]
    unfold appendToPartition
    rw [List.foldl_cons, appendStep_stale _ _ id t2 rfl hne
      (by rw [idxGet_idxSet]; simp) (by exact hle12)]
    rfl
  refine ⟨⟨?_, ?_⟩, ⟨?_, ?_⟩, ⟨?_, ?_⟩, ⟨?_, ?_⟩⟩
  · rw [hA.1, hA1]; simp
  · rw [hA.2, hA1]; simp [idxGet_idxSet]
  · rw [hB.1, hB1]
  · rw [hB.2, hB1]; simp [idxGet_idxSet]
  · rw [hE.1, hE1]; simp
  · rw [hE.2, hE1]; simp [idxGet_idxSet]
  · rw [hF.1, hF1]
  · rw [hF.2, hF1]; simp [idxGet_idxSet]

/-- Witness for C3 amended, at concrete records in partition 202401: both
orders leave the index at t2. -/
theorem dedup_both_orders_witness :
    idxGet ((appendRecords emptyStore
        [⟨some "2401.00001", some "2024-01-05T00:00:00", ""⟩,
         ⟨some "2401.00001", some "2024-01-06T00:00:00", ""⟩]).index "202401")
      "2401.00001" = some "2024-01-06T00:00:00" ∧
    idxGet ((appendRecords emptyStore
        [⟨some "2401.00001", some "2024-01-06T00:00:00", ""⟩,
         ⟨some "2401.00001", some "2024-01-05T00:00:00", ""⟩]).index "202401")
      "2401.00001" = some "2024-01-06T00:00:00" :=
  ⟨(dedup_both_orders emptyStore "2401.00001" "2024-01-05T00:00:00"
      "2024-01-06T00:00:00" "202401" "" "" (by decide) (by decide)
      (by decide) (by decide) rfl).1.2,
   (dedup_both_orders emptyStore "2401.00001" "2024-01-05T00:00:00"
      "2024-01-06T00:00:00" "202401" "" "" (by decide) (by decide)
      (by decide) (by decide) rfl).2.1.2⟩

/-! ### `read_range` (`_LocalStore.read_range`) -/

/-- Linear month index used by the month-enumeration loop. -/
def monthIdx (d : Date) : Nat := d.year * 12 + (d.month - 1)

/-- Month key of a linear month index. -/
def keyOfIdx (n : Nat) : String := monthKey (n / 12) (n % 12 + 1)

/-- The sorted set of month keys overlapping `[A, B]`: the source walks
first-of-month anchors from `A`'s month while `cur <= end_anchor`, collects
the keys into a set and sorts it; the anchors are generated in strictly
ascending order, so this equals the ascending enumeration of month indices
from `monthIdx A` to `monthIdx B`. -/
def monthKeysIn (A B : Date) : List String :=
  (List.range (monthIdx B + 1 - monthIdx A)).map (fun i => keyOfIdx (monthIdx A + i))

/-- The date-range mask applied to the concatenated partition rows: parse
`updated` (`pd.to_datetime(..., errors="coerce")`; a missing value or parse
failure gives `NaT`, whose comparisons are false) and keep rows whose date
lies in the inclusive `[start_date, end_date]` range. -/
def inRangeB (A B : Date) (r : Rec) : Bool :=
  match r.updated with
  | none => false
  | some su =>
    match parseDateTime su with
    | none => false
    | some u => decide (A ≤ u.date ∧ u.date ≤ B)

/-- `_LocalStore.read_range`: concatenate the rows of every month partition
overlapping the window, in ascending month order, then filter by the
`updated`-date mask. -/
def readRange (s : StoreState) (A B : Date) : List Rec :=
  ((monthKeysIn A B).flatMap (fun m => s.file m)).filter (inRangeB A B)

theorem daysInMonth_le31 (y m : Nat) : daysInMonth y m ≤ 31 := by
  unfold daysInMonth
  split
  · split <;> omega
  · split <;> omega

theorem dateValidB_bounds {d : Date} (h : d.validB = true) :
    1 ≤ d.year ∧ d.year ≤ 9999 ∧ 1 ≤ d.month ∧ d.month ≤ 12 ∧
      1 ≤ d.day ∧ d.day ≤ 31 := by
  simp only [Date.validB, decide_eq_true_eq] at h
  have := daysInMonth_le31 d.year d.month
  exact ⟨h.1, h.2.1, h.2.2.1, h.2.2.2.1, h.2.2.2.2.1, by omega⟩

theorem keyOfIdx_monthIdx {d : Date} (h : d.validB = true) :
    keyOfIdx (monthIdx d) = monthKey d.year d.month := by
  obtain ⟨h1, h2, h3, h4, h5, h6⟩ := dateValidB_bounds h
  unfold keyOfIdx monthIdx
  have e1 : (d.year * 12 + (d.month - 1)) / 12 = d.year := by omega
  have e2 : (d.year * 12 + (d.month - 1)) % 12 + 1 = d.month := by omega
  rw [e1, e2]

theorem monthKey_mem_monthKeysIn {A B d : Date}
    (hA : A.validB = true) (hB : B.validB = true) (hd : d.validB = true)
    (h1 : A ≤ d) (h2 : d ≤ B) :
    monthKey d.year d.month ∈ monthKeysIn A B := by
  obtain ⟨a1, a2, a3, a4, a5, a6⟩ := dateValidB_bounds hA
  obtain ⟨b1, b2, b3, b4, b5, b6⟩ := dateValidB_bounds hB
  obtain ⟨c1, c2, c3, c4, c5, c6⟩ := dateValidB_bounds hd
  have h1' : A.scalar ≤ d.scalar := h1
  have h2' : d.scalar ≤ B.scalar := h2
  simp only [Date.scalar] at h1' h2'
  have hlo : monthIdx A ≤ monthIdx d := by unfold monthIdx; omega
  have hhi : monthIdx d ≤ monthIdx B := by unfold monthIdx; omega
  rw [← keyOfIdx_monthIdx hd]
  unfold monthKeysIn
  refine List.mem_map.mpr ⟨monthIdx d - monthIdx A, ?_, ?_⟩
  · exact List.mem_range.mpr (by omega)
  · congr 1
    omega

/-! ### C6: range-read correctness -/

/-- C6: a record stored in the partition `append_records` assigns it, whose
`updated` parses and whose date lies in the inclusive window, is returned by
`read_range`; and any record whose parsed `updated` date lies outside the
window is excluded from the result, wherever it is stored — in particular
also when it shares a boundary partition with an included record. -/
theorem readRange_correct (s : StoreState) (A B : Date)
    (hA : A.validB = true) (hB : B.validB = true) :
    (∀ r su u, r.updated = some su → parseDateTime su = some u →
      r ∈ s.file (monthKeyOfUpdated r.updated) →
      A ≤ u.date → u.date ≤ B → r ∈ readRange s A B) ∧
    (∀ r su u, r.updated = some su → parseDateTime su = some u →
      ¬ (A ≤ u.date ∧ u.date ≤ B) → r ∉ readRange s A B) := by
  constructor
  · intro r su u hsu hp hmem h1 h2
    have hud : u.date.validB = true := by
      have := parseDateTime_valid hp
      simp only [DateTime.validB, Bool.and_eq_true] at this
      exact this.1
    have hkey : monthKeyOfUpdated r.updated = monthKey u.date.year u.date.month := by
      simp [monthKeyOfUpdated, hsu, hp]
    refine List.mem_filter.mpr ⟨?_, ?_⟩
    · refine List.mem_flatMap.mpr ⟨monthKeyOfUpdated r.updated, ?_, hmem⟩
      rw [hkey]
      exact monthKey_mem_monthKeysIn hA hB hud h1 h2
    · simp [inRangeB, hsu, hp, h1, h2]
  · intro r su u hsu hp hout hin
    have := (List.mem_filter.mp hin).2
    simp only [inRangeB, hsu, hp, decide_eq_true_eq] at this
    exact hout this

/-- Witness for C6: a two-record January partition; with window
2024-01-01..2024-01-10, the 05 record is returned and the 20 record —
stored in the same partition — is excluded. -/
theorem readRange_correct_witness :
    (⟨some "2401.00001", some "2024-01-05T00:00:00", ""⟩ : Rec) ∈
      readRange
        ⟨fun m => if m = "202401" then
            [⟨some "2401.00001", some "2024-01-05T00:00:00", ""⟩,
             ⟨some "2401.00002", some "2024-01-20T00:00:00", ""⟩] else [],
          fun _ => []⟩
        ⟨2024, 1, 1⟩ ⟨2024, 1, 10⟩ ∧
    (⟨some "2401.00002", some "2024-01-20T00:00:00", ""⟩ : Rec) ∉
      readRange
        ⟨fun m => if m = "202401" then
            [⟨some "2401.00001", some "2024-01-05T00:00:00", ""⟩,
             ⟨some "2401.00002", some "2024-01-20T00:00:00", ""⟩] else [],
          fun _ => []⟩
        ⟨2024, 1, 1⟩ ⟨2024, 1, 10⟩ :=
  ⟨(readRange_correct
      ⟨fun m => if m = "202401" then
          [⟨some "2401.00001", some "2024-01-05T00:00:00", ""⟩,
           ⟨some "2401.00002", some "2024-01-20T00:00:00", ""⟩] else [],
        fun _ => []⟩
      ⟨2024, 1, 1⟩ ⟨2024, 1, 10⟩ (by decide) (by decide)).1
    ⟨some "2401.00001", some "2024-01-05T00:00:00", ""⟩
    "2024-01-05T00:00:00" ⟨⟨2024, 1, 5⟩, 0, 0, 0⟩ rfl (by decide)
    (by decide) (by decide) (by decide),
   (readRange_correct
      ⟨fun m => if m = "202401" then
          [⟨some "2401.00001", some "2024-01-05T00:00:00", ""⟩,
           ⟨some "2401.00002", some "2024-01-20T00:00:00", ""⟩] else [],
        fun _ => []⟩
      ⟨2024, 1, 1⟩ ⟨2024, 1, 10⟩ (by decide) (by decide)).2
    ⟨some "2401.00002", some "2024-01-20T00:00:00", ""⟩
    "2024-01-20T00:00:00" ⟨⟨2024, 1, 20⟩, 0, 0, 0⟩ rfl (by decide)
    (by decide)⟩

/-! ### Checkpoint store (`_Checkpoint`) -/

/-- `_Checkpoint.get_since`: the stored `last_updated_iso` value, treating a
missing or empty value and a parse failure as "never harvested". The state
is the stored string (the `last_run` field plays no role here). -/
def getSince (st : Option String) : Option DateTime :=
  match st with
  | none => none
  | some v => if v = "" then none else parseDateTime v

/-- `_Checkpoint.set_since`: store `t.isoformat()` (written atomically by
`save`). -/
def setSince (t : DateTime) : Option String := some t.isoformat

theorem isoformat_ne_empty (t : DateTime) : t.isoformat ≠ "" := by
  intro h
  have hd := congrArg String.data h
  simp [DateTime.isoformat, fmt4chars] at hd

/-- `get_since` after `set_since` recovers the written timestamp. -/
theorem getSince_setSince (t : DateTime) (hv : t.validB = true) :
    getSince (setSince t) = some t := by
  simp only [getSince, setSince, if_neg (isoformat_ne_empty t)]
  exact parse_isoformat t hv

/-! ### The sync cycle (`FetchPapersBulkNode._incremental_sync`) -/

/-- What the environment delivers for one harvest window: the records the
client yields (already parsed; `_parse_record` failures are represented by
the id filter below), whether the client raises after yielding them
(exhausted retries mid-window), and which `append_records` call of this
window — counting flushes from 0 — fails with an I/O error, if any. -/
structure WindowData where
  recs : List Rec
  clientFails : Bool
  storeFailAt : Option Nat

/-- The orchestrator state threaded through the window loop: the store and
the `last_seen_updated` tracker. -/
structure SyncState where
  store : StoreState
  lastSeen : Option DateTime

/-- The record filter of the harvest loop:
`if not obj or not obj.get("arxiv_id"): continue`. -/
def recOk (r : Rec) : Bool := decide (r.arxiv_id ≠ none ∧ r.arxiv_id ≠ some "")

/-- The `last_seen_updated` update for one flushed record: parse its
`updated` (missing value or parse failure is swallowed by the try/except)
and keep the strictly larger timestamp. -/
def obsStep (a : Option DateTime) (u : DateTime) : Option DateTime :=
  match a with
  | none => some u
  | some m => if m < u then some u else a

def trackStep (a : Option DateTime) (r : Rec) : Option DateTime :=
  match r.updated.bind parseDateTime with
  | none => a
  | some ud => obsStep a ud

/-- The `for it in batch` tracking loop run after a successful flush. -/
def trackMax (a : Option DateTime) (rs : List Rec) : Option DateTime :=
  rs.foldl trackStep a

/-- Maximum of a running optional maximum and a list of timestamps. -/
def obsMax (a : Option DateTime) (l : List DateTime) : Option DateTime :=
  l.foldl obsStep a

/-- The per-window harvest loop: stream records, buffer batches of 500,
flush each full batch and the trailing partial batch via `append_records`,
tracking `last_seen_updated` after each successful flush.  Any exception —
the client raising after its yielded records (`clientFails`) or a store
write error at flush number `failAt` — aborts the rest of the window; it is
caught by the window-level handler, so the state reached so far is kept. -/
def runWindow (failAt : Option Nat) (cf : Bool) :
    SyncState → List Rec → Nat → List Rec → SyncState
  | st, batch, flushIdx, [] =>
    if cf then st
    else if batch.isEmpty then st
    else if failAt = some flushIdx then st
    else ⟨appendRecords st.store batch, trackMax st.lastSeen batch⟩
  | st, batch, flushIdx, r :: rest =>
    if recOk r = false then runWindow failAt cf st batch flushIdx rest
    else
      if 500 ≤ (batch ++ [r]).length then
        if failAt = some flushIdx then st
        else runWindow failAt cf
          ⟨appendRecords st.store (batch ++ [r]),
           trackMax st.lastSeen (batch ++ [r])⟩ [] (flushIdx + 1) rest
      else runWindow failAt cf st (batch ++ [r]) flushIdx rest

/-- One window of the sync loop, starting with an empty batch. -/
def processWindow (st : SyncState) (w : WindowData) : SyncState :=
  runWindow w.storeFailAt w.clientFails st [] 0 w.recs

/-- The records of one window that are durably flushed (the batches
`append_records` completed on), mirroring the control flow of
`runWindow`. -/
def windowFlushed (failAt : Option Nat) (cf : Bool) :
    List Rec → Nat → List Rec → List Rec
  | batch, flushIdx, [] =>
    if cf then []
    else if batch.isEmpty then []
    else if failAt = some flushIdx then []
    else batch
  | batch, flushIdx, r :: rest =>
    if recOk r = false then windowFlushed failAt cf batch flushIdx rest
    else
      if 500 ≤ (batch ++ [r]).length then
        if failAt = some flushIdx then []
        else (batch ++ [r]) ++ windowFlushed failAt cf [] (flushIdx + 1) rest
      else windowFlushed failAt cf (batch ++ [r]) flushIdx rest

/-- The parse-successful `updated` timestamps of a list of records. -/
def parsedUpdates (rs : List Rec) : List DateTime :=
  rs.filterMap (fun r => r.updated.bind parseDateTime)

/-- Starting date of a cycle (`INIT`): the checkpoint's date, or the
2007-01-01 bootstrap default. -/
def syncStart (ckptSt : Option String) : Date :=
  match getSince ckptSt with
  | none => ⟨2007, 1, 1⟩
  | some s => s.date

/-- Python `min(end, x)` on dates. -/
def minDate (a b : Date) : Date := if a ≤ b then a else b

/-- Successor day (`timedelta(days=1)` on a valid date). -/
def Date.next (d : Date) : Date :=
  if d.day < daysInMonth d.year d.month then ⟨d.year, d.month, d.day + 1⟩
  else if d.month < 12 then ⟨d.year, d.month + 1, 1⟩
  else ⟨d.year + 1, 1, 1⟩

/-- `d + timedelta(days=n)` on a valid date. -/
def addDays (d : Date) : Nat → Date
  | 0 => d
  | n + 1 => addDays d.next n

/-- The window walk of `_incremental_sync`: from `start`, windows of
`windowDays` days clipped at `end`, advancing to the day after each
window's end.  The loop terminates because each step advances at least one
day; the fuel is a day-count bound that the caller makes large enough. -/
def computeWindows (fuel : Nat) (cur endD : Date) (windowDays : Nat) :
    List (Date × Date) :=
  match fuel with
  | 0 => []
  | fuel + 1 =>
    if cur ≤ endD then
      (cur, minDate endD (addDays cur (windowDays - 1))) ::
        computeWindows fuel (addDays (minDate endD (addDays cur (windowDays - 1))) 1)
          endD windowDays
    else []

/-- `datetime.combine(end, time())`: midnight of a date. -/
def midnight (d : Date) : DateTime := ⟨d, 0, 0, 0⟩

/-- Result of `_incremental_sync`: the store, the checkpoint state, and
whether `set_since` was called. -/
structure SyncResult where
  store : StoreState
  ckpt : Option String
  wrote : Bool

/-- `FetchPapersBulkNode._incremental_sync`: read the checkpoint, compute
`[start, today]`, return immediately when `start >= end`; otherwise walk the
windows (each window's client data and failure behaviour supplied by
`oracle`), every window exception being caught and logged, then write the
checkpoint with `last_seen_updated` (initialized to the old checkpoint,
falling back to midnight of `end` when still absent). -/
def incrementalSync (ckptSt : Option String) (today : Date) (windowDays : Nat)
    (oracle : Date → Date → WindowData) (store : StoreState) : SyncResult :=
  if today ≤ syncStart ckptSt then ⟨store, ckptSt, false⟩
  else
    let ws := computeWindows (372 * (today.year + 2)) (syncStart ckptSt) today windowDays
    let final := ws.foldl (fun st w => processWindow st (oracle w.1 w.2))
      ⟨store, getSince ckptSt⟩
    ⟨final.store, setSince (final.lastSeen.getD (midnight today)), true⟩

/-- The parsed `updated` values of the records flushed in one window. -/
def windowUpdates (w : WindowData) : List DateTime :=
  parsedUpdates (windowFlushed w.storeFailAt w.clientFails [] 0 w.recs)

/-- All parsed `updated` values flushed during a cycle, window by window. -/
def cycleUpdates (ckptSt : Option String) (today : Date) (windowDays : Nat)
    (oracle : Date → Date → WindowData) : List DateTime :=
  (computeWindows (372 * (today.year + 2)) (syncStart ckptSt) today
      windowDays).flatMap (fun w => windowUpdates (oracle w.1 w.2))

/-! ### Properties of the maximum tracker -/

theorem dtLe_refl (t : DateTime) : t ≤ t := Nat.le_refl t.scalar

theorem dtLe_trans {a b c : DateTime} (h1 : a ≤ b) (h2 : b ≤ c) : a ≤ c :=
  Nat.le_trans h1 h2

theorem dtLe_of_lt {a b : DateTime} (h : a < b) : a ≤ b := Nat.le_of_lt h

theorem dtLe_of_not_lt {a b : DateTime} (h : ¬ a < b) : b ≤ a :=
  Nat.le_of_not_lt h

theorem obsStep_some (a : Option DateTime) (u : DateTime) :
    ∃ m, obsStep a u = some m ∧ u ≤ m := by
  match a with
  | none => exact ⟨u, rfl, dtLe_refl u⟩
  | some m0 =>
    by_cases h : m0 < u
    · exact ⟨u, by simp [obsStep, h], dtLe_refl u⟩
    · exact ⟨m0, by simp [obsStep, h], dtLe_of_not_lt h⟩

theorem obsStep_mono {a : Option DateTime} {s : DateTime} (u : DateTime)
    (h : a = some s) : ∃ m, obsStep a u = some m ∧ s ≤ m := by
  subst h
  by_cases h : s < u
  · exact ⟨u, by simp [obsStep, h], dtLe_of_lt h⟩
  · exact ⟨s, by simp [obsStep, h], dtLe_refl s⟩

theorem obsMax_some (s : DateTime) (l : List DateTime) :
    ∃ t, obsMax (some s) l = some t ∧ s ≤ t := by
  induction l generalizing s with
  | nil => exact ⟨s, rfl, dtLe_refl s⟩
  | cons u rest ih =>
    obtain ⟨m, hm, hsm⟩ := obsStep_mono (a := some s) u rfl
    obtain ⟨t, ht, hmt⟩ := ih m
    refine ⟨t, ?_, dtLe_trans hsm hmt⟩
    simpa [obsMax, hm] using ht

theorem obsMax_start_le {m : DateTime} {rest : List DateTime} {t : DateTime}
    (h : obsMax (some m) rest = some t) : m ≤ t := by
  obtain ⟨t', ht', hle⟩ := obsMax_some m rest
  rw [h] at ht'
  cases ht'
  exact hle

theorem obsMax_le {a : Option DateTime} {l : List DateTime} {t : DateTime}
    (h : obsMax a l = some t) : ∀ u ∈ l, u ≤ t := by
  induction l generalizing a with
  | nil => intro u hu; cases hu
  | cons u' rest ih =>
    intro u hu
    have hstep : obsMax a (u' :: rest) = obsMax (obsStep a u') rest := rfl
    rw [hstep] at h
    rcases List.mem_cons.mp hu with hu | hu
    · subst hu
      obtain ⟨m, hm, hum⟩ := obsStep_some a u
      rw [hm] at h
      exact dtLe_trans hum (obsMax_start_le h)
    · exact ih h u hu

theorem obsMax_mem {a : Option DateTime} {l : List DateTime} {t : DateTime}
    (h : obsMax a l = some t) : t ∈ l ∨ a = some t := by
  induction l generalizing a with
  | nil => exact Or.inr h
  | cons u' rest ih =>
    have hstep : obsMax a (u' :: rest) = obsMax (obsStep a u') rest := rfl
    rw [hstep] at h
    rcases ih h with hmem | heq
    · exact Or.inl (List.mem_cons_of_mem u' hmem)
    · match a with
      | none =>
        simp only [obsStep] at heq
        cases heq
        exact Or.inl (List.mem_cons_self _ _)
      | some m0 =>
        simp only [obsStep] at heq
        split at heq
        · cases heq; exact Or.inl (List.mem_cons_self _ _)
        · exact Or.inr heq

theorem obsMax_none {a : Option DateTime} {l : List DateTime}
    (h : obsMax a l = none) : a = none ∧ l = [] := by
  match l with
  | [] => exact ⟨h, rfl⟩
  | u :: rest =>
    have hstep : obsMax a (u :: rest) = obsMax (obsStep a u) rest := rfl
    rw [hstep] at h
    obtain ⟨m, hm, _⟩ := obsStep_some a u
    obtain ⟨t, ht, _⟩ := obsMax_some m rest
    rw [hm] at h
    rw [h] at ht
    cases ht

theorem obsMax_append (a : Option DateTime) (l1 l2 : List DateTime) :
    obsMax a (l1 ++ l2) = obsMax (obsMax a l1) l2 := by
  simp [obsMax, List.foldl_append]

theorem trackMax_eq_obsMax (rs : List Rec) :
    ∀ a, trackMax a rs = obsMax a (parsedUpdates rs) := by
  induction rs with
  | nil => intro a; rfl
  | cons r t ih =>
    intro a
    simp only [trackMax, List.foldl_cons, parsedUpdates, List.filterMap_cons]
    match hr : r.updated.bind parseDateTime with
    | none =>
      have hts : trackStep a r = a := by simp [trackStep, hr]
      rw [hts]
      exact ih a
    | some ud =>
      have hts : trackStep a r = obsStep a ud := by simp [trackStep, hr]
      rw [hts]
      exact ih (obsStep a ud)

theorem parsedUpdates_append (l1 l2 : List Rec) :
    parsedUpdates (l1 ++ l2) = parsedUpdates l1 ++ parsedUpdates l2 := by
  simp [parsedUpdates]

theorem mem_parsedUpdates_valid {u : DateTime} {rs : List Rec}
    (h : u ∈ parsedUpdates rs) : u.validB = true := by
  simp only [parsedUpdates, List.mem_filterMap] at h
  obtain ⟨r, _, hr⟩ := h
  obtain ⟨s, _, hp⟩ := Option.bind_eq_some.mp hr
  exact parseDateTime_valid hp

/-- The `last_seen_updated` value reached by one window is the maximum of
the incoming value and the parsed `updated` values of this window's flushed
records. -/
theorem runWindow_lastSeen (failAt : Option Nat) (cf : Bool) :
    ∀ (recs : List Rec) (st : SyncState) (batch : List Rec) (flushIdx : Nat),
      (runWindow failAt cf st batch flushIdx recs).lastSeen =
        obsMax st.lastSeen
          (parsedUpdates (windowFlushed failAt cf batch flushIdx recs)) := by
  intro recs
  induction recs with
  | nil =>
    intro st batch flushIdx
    by_cases h1 : cf
    · simp [runWindow, windowFlushed, h1, parsedUpdates, obsMax]
    · by_cases h2 : batch.isEmpty
      · simp [runWindow, windowFlushed, h1, h2, parsedUpdates, obsMax]
      · by_cases h3 : failAt = some flushIdx
        · simp [runWindow, windowFlushed, h1, h2, h3, parsedUpdates, obsMax]
        · simp [runWindow, windowFlushed, h1, h2, h3]
          exact trackMax_eq_obsMax batch st.lastSeen
  | cons r rest ih =>
    intro st batch flushIdx
    by_cases h1 : recOk r = false
    · simp only [runWindow, windowFlushed, if_pos h1]
      exact ih st batch flushIdx
    · by_cases h2 : 500 ≤ (batch ++ [r]).length
      · by_cases h3 : failAt = some flushIdx
        · simp only [runWindow, windowFlushed, if_neg h1, if_pos h2, if_pos h3]
          rfl
        · simp only [runWindow, windowFlushed, if_neg h1, if_pos h2, if_neg h3]
          rw [ih]
          simp only [SyncState.lastSeen]
          rw [trackMax_eq_obsMax]
          simp only [parsedUpdates_append, obsMax_append, List.append_assoc,
            List.cons_append, List.nil_append]
          rw [show r :: windowFlushed failAt cf [] (flushIdx + 1) rest =
            [r] ++ windowFlushed failAt cf [] (flushIdx + 1) rest from rfl,
            parsedUpdates_append, obsMax_append]
      · simp only [runWindow, windowFlushed, if_neg h1, if_neg h2]
        exact ih st (batch ++ [r]) flushIdx

/-- Folding the window loop over a list of windows accumulates the maximum
over all windows' flushed updates. -/
theorem foldl_processWindow_lastSeen (oracle : Date → Date → WindowData)
    (ws : List (Date × Date)) :
    ∀ st : SyncState,
      (ws.foldl (fun st w => processWindow st (oracle w.1 w.2)) st).lastSeen =
        obsMax st.lastSeen (ws.flatMap (fun w => windowUpdates (oracle w.1 w.2))) := by
  induction ws with
  | nil => intro st; rfl
  | cons w rest ih =>
    intro st
    simp only [List.foldl_cons, List.flatMap_cons]
    rw [ih, obsMax_append]
    congr 1
    exact runWindow_lastSeen _ _ _ st [] 0

/-- Closed form of the checkpoint written by a non-no-op cycle. -/
theorem incrementalSync_ckpt (ckptSt : Option String) (today : Date)
    (windowDays : Nat) (oracle : Date → Date → WindowData) (store : StoreState)
    (hrun : ¬ today ≤ syncStart ckptSt) :
    (incrementalSync ckptSt today windowDays oracle store).ckpt =
      setSince ((obsMax (getSince ckptSt)
        (cycleUpdates ckptSt today windowDays oracle)).getD (midnight today)) := by
  unfold incrementalSync
  rw [if_neg hrun]
  show setSince
      (((computeWindows (372 * (today.year + 2)) (syncStart ckptSt) today
            windowDays).foldl (fun st w => processWindow st (oracle w.1 w.2))
          ⟨store, getSince ckptSt⟩).lastSeen.getD (midnight today)) = _
  rw [foldl_processWindow_lastSeen]
  rfl

/-- A non-no-op cycle always ends in a `set_since` call. -/
theorem incrementalSync_wrote (ckptSt : Option String) (today : Date)
    (windowDays : Nat) (oracle : Date → Date → WindowData) (store : StoreState)
    (hrun : ¬ today ≤ syncStart ckptSt) :
    (incrementalSync ckptSt today windowDays oracle store).wrote = true := by
  unfold incrementalSync
  rw [if_neg hrun]

theorem mem_cycleUpdates_valid {u : DateTime} {ckptSt : Option String}
    {today : Date} {windowDays : Nat} {oracle : Date → Date → WindowData}
    (h : u ∈ cycleUpdates ckptSt today windowDays oracle) : u.validB = true := by
  simp only [cycleUpdates, List.mem_flatMap] at h
  obtain ⟨w, _, hu⟩ := h
  exact mem_parsedUpdates_valid hu

/-! ### C4: the persisted checkpoint value -/

/-- C4 counterexample: two non-no-op cycles where the code's written
checkpoint contradicts the claim.  (i) Nothing is flushed during the cycle,
yet the checkpoint is written with the prior checkpoint value
2024-05-29T12:00:00, not the cycle's end date 2024-06-01.  (ii) One record
with `updated` 2024-05-25T00:00:00 is flushed — the maximum over flushed
records — yet the checkpoint is again written with the older prior value
2024-05-29T12:00:00 rather than that maximum. -/
theorem sync_checkpoint_counterexample :
    ((incrementalSync (some "2024-05-29T12:00:00") ⟨2024, 6, 1⟩ 7
        (fun _ _ => ⟨[], false, none⟩) emptyStore).ckpt =
      some "2024-05-29T12:00:00" ∧
      "2024-05-29T12:00:00" ≠ "2024-06-01T00:00:00") ∧
    ((incrementalSync (some "2024-05-29T12:00:00") ⟨2024, 6, 1⟩ 7
        (fun _ _ => ⟨[⟨some "2401.00001", some "2024-05-25T00:00:00", ""⟩],
          false, none⟩) emptyStore).ckpt =
      some "2024-05-29T12:00:00" ∧
      "2024-05-29T12:00:00" ≠ "2024-05-25T00:00:00") := by
  decide

/-- C4 amended: a non-no-op cycle writes the checkpoint with the maximum of
the prior checkpoint value (when present and parseable) and the parseable
`updated` timestamps of the records flushed during the cycle; only when
neither exists does it fall back to midnight of the cycle's end date. -/
theorem sync_checkpoint_value (ckptSt : Option String) (today : Date)
    (windowDays : Nat) (oracle : Date → Date → WindowData) (store : StoreState)
    (hrun : ¬ today ≤ syncStart ckptSt) :
    ∃ t : DateTime,
      (incrementalSync ckptSt today windowDays oracle store).ckpt = setSince t ∧
      (∀ s, getSince ckptSt = some s → s ≤ t) ∧
      (∀ u ∈ cycleUpdates ckptSt today windowDays oracle, u ≤ t) ∧
      (t ∈ cycleUpdates ckptSt today windowDays oracle ∨
        getSince ckptSt = some t ∨
        (cycleUpdates ckptSt today windowDays oracle = [] ∧
          getSince ckptSt = none ∧ t = midnight today)) := by
  have hc := incrementalSync_ckpt ckptSt today windowDays oracle store hrun
  match hmax : obsMax (getSince ckptSt)
      (cycleUpdates ckptSt today windowDays oracle) with
  | some t0 =>
    refine ⟨t0, by rw [hc, hmax]; rfl, ?_, ?_, ?_⟩
    · intro s hs
      rw [hs] at hmax
      exact obsMax_start_le hmax
    · exact obsMax_le hmax
    · rcases obsMax_mem hmax with h | h
      · exact Or.inl h
      · exact Or.inr (Or.inl h)
  | none =>
    obtain ⟨hnone, hempty⟩ := obsMax_none hmax
    refine ⟨midnight today, by rw [hc, hmax]; rfl, ?_, ?_, ?_⟩
    · intro s hs; rw [hs] at hnone; cases hnone
    · intro u hu; rw [hempty] at hu; cases hu
    · exact Or.inr (Or.inr ⟨hempty, hnone, rfl⟩)

/-- Witness for C4 amended: a bootstrap cycle (no checkpoint), two empty
windows over 2007-01-01..2007-01-03; the written value is the end date. -/
theorem sync_checkpoint_value_witness :
    ∃ t : DateTime,
      (incrementalSync none ⟨2007, 1, 3⟩ 2
          (fun _ _ => ⟨[], false, none⟩) emptyStore).ckpt = setSince t ∧
      (∀ s, getSince none = some s → s ≤ t) ∧
      (∀ u ∈ cycleUpdates none ⟨2007, 1, 3⟩ 2 (fun _ _ => ⟨[], false, none⟩),
        u ≤ t) ∧
      (t ∈ cycleUpdates none ⟨2007, 1, 3⟩ 2 (fun _ _ => ⟨[], false, none⟩) ∨
        getSince none = some t ∨
        (cycleUpdates none ⟨2007, 1, 3⟩ 2 (fun _ _ => ⟨[], false, none⟩) = [] ∧
          getSince none = none ∧ t = midnight ⟨2007, 1, 3⟩)) :=
  sync_checkpoint_value none ⟨2007, 1, 3⟩ 2 (fun _ _ => ⟨[], false, none⟩)
    emptyStore (by decide)

/-! ### C5: store write errors and the cycle -/

/-- C5 counterexample: a cycle with checkpoint 2024-05-20T00:00:00 and two
windows in which the FIRST window's `append_records` raises an I/O error
(its record is lost) while the second window succeeds.  Contrary to the
claim, the error does not abort the cycle: the second window's record is
durably appended, the cycle completes, `set_since` runs, and the checkpoint
ADVANCES to 2024-05-30T08:00:00. -/
theorem sync_store_error_counterexample :
    ((incrementalSync (some "2024-05-20T00:00:00") ⟨2024, 6, 1⟩ 7
        (fun a _ => if a = ⟨2024, 5, 20⟩ then
            ⟨[⟨some "2401.00009", some "2024-05-21T00:00:00", ""⟩], false, some 0⟩
          else
            ⟨[⟨some "2401.00010", some "2024-05-30T08:00:00", ""⟩], false, none⟩)
        emptyStore).ckpt = some "2024-05-30T08:00:00" ∧
      (incrementalSync (some "2024-05-20T00:00:00") ⟨2024, 6, 1⟩ 7
        (fun a _ => if a = ⟨2024, 5, 20⟩ then
            ⟨[⟨some "2401.00009", some "2024-05-21T00:00:00", ""⟩], false, some 0⟩
          else
            ⟨[⟨some "2401.00010", some "2024-05-30T08:00:00", ""⟩], false, none⟩)
        emptyStore).wrote = true) ∧
    ((incrementalSync (some "2024-05-20T00:00:00") ⟨2024, 6, 1⟩ 7
        (fun a _ => if a = ⟨2024, 5, 20⟩ then
            ⟨[⟨some "2401.00009", some "2024-05-21T00:00:00", ""⟩], false, some 0⟩
          else
            ⟨[⟨some "2401.00010", some "2024-05-30T08:00:00", ""⟩], false, none⟩)
        emptyStore).store.file "202405" =
      [⟨some "2401.00010", some "2024-05-30T08:00:00", ""⟩] ∧
      "2024-05-30T08:00:00" ≠ "2024-05-20T00:00:00") := by
  decide

/-- C5 amended: a store write error inside a window is caught by the
per-window handler like any other window failure: the sync cycle does not
abort, subsequent windows are still processed, and for a non-no-op cycle
`set_since` is still executed at the end, writing a checkpoint value (which
may advance past the pre-cycle value on the strength of other flushes). -/
theorem sync_store_error_contained (ckptSt : Option String) (today : Date)
    (windowDays : Nat) (oracle : Date → Date → WindowData) (store : StoreState)
    (hrun : ¬ today ≤ syncStart ckptSt)
    (a b : Date) (j : Nat) (_hfail : (oracle a b).storeFailAt = some j) :
    (incrementalSync ckptSt today windowDays oracle store).wrote = true ∧
    ∃ t : DateTime,
      (incrementalSync ckptSt today windowDays oracle store).ckpt = setSince t := by
  refine ⟨incrementalSync_wrote ckptSt today windowDays oracle store hrun, ?_⟩
  exact ⟨_, incrementalSync_ckpt ckptSt today windowDays oracle store hrun⟩

/-- Witness for C5 amended at the counterexample's concrete cycle. -/
theorem sync_store_error_contained_witness :
    (incrementalSync (some "2024-05-20T00:00:00") ⟨2024, 6, 1⟩ 7
        (fun a _ => if a = ⟨2024, 5, 20⟩ then
            ⟨[⟨some "2401.00009", some "2024-05-21T00:00:00", ""⟩], false, some 0⟩
          else
            ⟨[⟨some "2401.00010", some "2024-05-30T08:00:00", ""⟩], false, none⟩)
        emptyStore).wrote = true ∧
    ∃ t : DateTime,
      (incrementalSync (some "2024-05-20T00:00:00") ⟨2024, 6, 1⟩ 7
        (fun a _ => if a = ⟨2024, 5, 20⟩ then
            ⟨[⟨some "2401.00009", some "2024-05-21T00:00:00", ""⟩], false, some 0⟩
          else
            ⟨[⟨some "2401.00010", some "2024-05-30T08:00:00", ""⟩], false, none⟩)
        emptyStore).ckpt = setSince t :=
  sync_store_error_contained (some "2024-05-20T00:00:00") ⟨2024, 6, 1⟩ 7
    (fun a _ => if a = ⟨2024, 5, 20⟩ then
        ⟨[⟨some "2401.00009", some "2024-05-21T00:00:00", ""⟩], false, some 0⟩
      else
        ⟨[⟨some "2401.00010", some "2024-05-30T08:00:00", ""⟩], false, none⟩)
    emptyStore (by decide) ⟨2024, 5, 20⟩ ⟨2024, 5, 26⟩ 0 (by decide)

/-! ### C7: monotonic checkpoint -/

/-- C7: a cycle that starts from a checkpoint established by a successful
`set_since tPrev` never writes (and `get_since` never afterwards returns) a
value older than `tPrev`: the cycle's resulting checkpoint parses to some
`tNext` with `tPrev ≤ tNext`, whatever the windows deliver. -/
theorem checkpoint_monotone (tPrev : DateTime) (hv : tPrev.validB = true)
    (today : Date) (windowDays : Nat) (oracle : Date → Date → WindowData)
    (store : StoreState) :
    ∃ tNext : DateTime,
      getSince (incrementalSync (setSince tPrev) today windowDays oracle
        store).ckpt = some tNext ∧ tPrev ≤ tNext := by
  by_cases hrun : today ≤ syncStart (setSince tPrev)
  · refine ⟨tPrev, ?_, dtLe_refl tPrev⟩
    unfold incrementalSync
    rw [if_pos hrun]
    exact getSince_setSince tPrev hv
  · have hc := incrementalSync_ckpt (setSince tPrev) today windowDays oracle
      store hrun
    rw [getSince_setSince tPrev hv] at hc
    obtain ⟨t0, ht0, hle⟩ := obsMax_some tPrev
      (cycleUpdates (setSince tPrev) today windowDays oracle)
    have hval : t0.validB = true := by
      rcases obsMax_mem ht0 with h | h
      · exact mem_cycleUpdates_valid h
      · cases h; exact hv
    refine ⟨t0, ?_, hle⟩
    rw [hc, ht0]
    exact getSince_setSince t0 hval

/-- Witness for C7: a concrete checkpoint and a cycle with one record newer
than it. -/
theorem checkpoint_monotone_witness :
    ∃ tNext : DateTime,
      getSince (incrementalSync (setSince ⟨⟨2024, 5, 29⟩, 12, 0, 0⟩)
        ⟨2024, 6, 1⟩ 7
        (fun _ _ => ⟨[⟨some "2401.00011", some "2024-05-30T09:30:00", ""⟩],
          false, none⟩) emptyStore).ckpt = some tNext ∧
      (⟨⟨2024, 5, 29⟩, 12, 0, 0⟩ : DateTime) ≤ tNext :=
  checkpoint_monotone ⟨⟨2024, 5, 29⟩, 12, 0, 0⟩ (by decide) ⟨2024, 6, 1⟩ 7
    (fun _ _ => ⟨[⟨some "2401.00011", some "2024-05-30T09:30:00", ""⟩],
      false, none⟩) emptyStore

/-! ### The OAI client's retry loop (`_OAIClient.list_records`, inner loop) -/

/-- Retry/backoff configuration of `_OAIClient` (floats modelled as exact
rationals; jitter is modelled in its disabled configuration, since its
random factor adds nothing to the claims). -/
structure OAIConfig where
  max_retries : Nat
  backoff_base : ℚ
  backoff_max : ℚ

/-- Python `min` on two numbers. -/
def ratMin (a b : ℚ) : ℚ := if a ≤ b then a else b

/-- Python `max` on two numbers. -/
def ratMax (a b : ℚ) : ℚ := if b ≤ a then a else b

/-- Python `a ** n` for a natural exponent. -/
def ratPow (a : ℚ) : Nat → ℚ
  | 0 => 1
  | n + 1 => a * ratPow a n

/-- `_OAIClient._sleep(attempt)` (jitter off): the duration passed to
`time.sleep` is `max(0.5, min(backoff_base ** attempt, backoff_max))`. -/
def sleepDuration (c : OAIConfig) (attempt : Nat) : ℚ :=
  ratMax (1/2) (ratMin (ratPow c.backoff_base attempt) c.backoff_max)

/-- One page request: the fixed query parameters (window, set, or a
resumption token for continuation pages). -/
structure OAIQuery where
  from_date : Date
  until_date : Date
  set_spec : String
  token : Option String
deriving DecidableEq, Repr

/-- One parsed response page. -/
structure OAIPage where
  recs : List Rec
  resumptionToken : Option String
deriving DecidableEq, Repr

/-- The inner `while True` retry loop of `list_records` for one page: try
the request (the environment's outcome per attempt given by `oracle`); on
success return the page; on a transport/parse error re-raise it verbatim
once `attempt >= max_retries`, else sleep `_sleep(attempt + 1)` and retry
the same query.  `left = max_retries - attempt` makes the recursion
structural; the returned list records the sleep durations in order. -/
def fetchLoop (c : OAIConfig) (oracle : OAIQuery → Nat → Except String OAIPage)
    (q : OAIQuery) : Nat → Nat → Except String OAIPage × List ℚ
  | attempt, left =>
    match oracle q attempt with
    | .ok p => (.ok p, [])
    | .error e =>
      match left with
      | 0 => (.error e, [])
      | left + 1 =>
        let rest := fetchLoop c oracle q (attempt + 1) left
        (rest.1, sleepDuration c (attempt + 1) :: rest.2)

/-- The whole per-page fetch: attempt 0 with `max_retries` retries left. -/
def fetchWithRetry (c : OAIConfig)
    (oracle : OAIQuery → Nat → Except String OAIPage) (q : OAIQuery) :
    Except String OAIPage × List ℚ :=
  fetchLoop c oracle q 0 c.max_retries

/-- The backoff sleeps performed when every attempt from `attempt + 1`
onwards fails, in order. -/
def sleepsFrom (c : OAIConfig) : Nat → Nat → List ℚ
  | _, 0 => []
  | attempt, left + 1 =>
    sleepDuration c (attempt + 1) :: sleepsFrom c (attempt + 1) left

theorem sleepsFrom_eq (c : OAIConfig) :
    ∀ (left attempt : Nat),
      sleepsFrom c attempt left =
        (List.range left).map (fun i => sleepDuration c (attempt + i + 1)) := by
  intro left
  induction left with
  | zero => intro attempt; rfl
  | succ left ih =>
    intro attempt
    rw [show sleepsFrom c attempt (left + 1) =
      sleepDuration c (attempt + 1) :: sleepsFrom c (attempt + 1) left from rfl]
    rw [ih (attempt + 1), List.range_succ_eq_map, List.map_cons, List.map_map]
    refine congrArg₂ List.cons ?_ ?_
    · exact congrArg (sleepDuration c) (by omega)
    · refine List.map_congr_left ?_
      intro i _
      exact congrArg (sleepDuration c) (by simp [Function.comp]; omega)

theorem fetchLoop_all_fail (c : OAIConfig)
    (oracle : OAIQuery → Nat → Except String OAIPage) (q : OAIQuery)
    (errs : Nat → String) :
    ∀ (left attempt : Nat),
      (∀ k, attempt ≤ k → k ≤ attempt + left → oracle q k = .error (errs k)) →
      fetchLoop c oracle q attempt left =
        (.error (errs (attempt + left)), sleepsFrom c attempt left) := by
  intro left
  induction left with
  | zero =>
    intro attempt h
    have h0 := h attempt (Nat.le_refl _) (Nat.le_refl _)
    simp [fetchLoop, h0, sleepsFrom]
  | succ left ih =>
    intro attempt h
    have h0 := h attempt (Nat.le_refl _) (by omega)
    have hrest := ih (attempt + 1) (fun k hk1 hk2 => h k (by omega) (by omega))
    simp only [fetchLoop, h0, hrest, sleepsFrom]
    exact congrArg₂ Prod.mk (congrArg Except.error (congrArg errs (by omega))) rfl

theorem fetchLoop_first_ok (c : OAIConfig)
    (oracle : OAIQuery → Nat → Except String OAIPage) (q : OAIQuery)
    (p : OAIPage) :
    ∀ (k left attempt : Nat), k ≤ left →
      (∀ j, attempt ≤ j → j < attempt + k → ∃ e, oracle q j = .error e) →
      oracle q (attempt + k) = .ok p →
      fetchLoop c oracle q attempt left = (.ok p, sleepsFrom c attempt k) := by
  intro k
  induction k with
  | zero =>
    intro left attempt _ _ hok
    simp only [Nat.add_zero] at hok
    simp [fetchLoop, hok, sleepsFrom]
  | succ k ih =>
    intro left attempt hk hfails hok
    obtain ⟨left2, rfl⟩ : ∃ l, left = l + 1 := ⟨left - 1, by omega⟩
    obtain ⟨e, he⟩ := hfails attempt (Nat.le_refl _) (by omega)
    have hrest := ih left2 (attempt + 1) (by omega)
      (fun j hj1 hj2 => hfails j (by omega) (by omega))
      (by rw [show attempt + 1 + k = attempt + (k + 1) from by omega]; exact hok)
    simp only [fetchLoop, he, hrest, sleepsFrom]

/-! ### C9: retry, backoff and the exhaustion error -/

/-- C9 counterexample: with `max_retries = 2`, `backoff_base = 1/10`,
`backoff_max = 30` and a connection error on every attempt, the loop for two
distinct windows returns the SAME verbatim transport error (it re-raises the
underlying exception; nothing in the raised error identifies the window or
the attempt count), and the slept duration is `max(0.5, ...)` = 1/2, not the
claimed `min(backoff_base ** attempt, backoff_max)` = 1/10. -/
theorem retry_error_counterexample :
    (fetchWithRetry ⟨2, 1/10, 30⟩ (fun _ _ => Except.error "connection refused")
        ⟨⟨2024, 1, 1⟩, ⟨2024, 1, 3⟩, "cs", none⟩ =
      (Except.error "connection refused",
       [sleepDuration ⟨2, 1/10, 30⟩ 1, sleepDuration ⟨2, 1/10, 30⟩ 2]) ∧
     fetchWithRetry ⟨2, 1/10, 30⟩ (fun _ _ => Except.error "connection refused")
        ⟨⟨2025, 2, 2⟩, ⟨2025, 2, 4⟩, "cs", none⟩ =
      (Except.error "connection refused",
       [sleepDuration ⟨2, 1/10, 30⟩ 1, sleepDuration ⟨2, 1/10, 30⟩ 2])) ∧
    (⟨⟨2024, 1, 1⟩, ⟨2024, 1, 3⟩, "cs", none⟩ : OAIQuery) ≠
      ⟨⟨2025, 2, 2⟩, ⟨2025, 2, 4⟩, "cs", none⟩ ∧
    sleepDuration ⟨2, 1/10, 30⟩ 1 = 1/2 ∧
    (1/2 : ℚ) ≠ ratMin (ratPow (1/10) 1) 30 := by
  refine ⟨⟨rfl, rfl⟩, by decide, ?_, ?_⟩
  · show ratMax (1/2) (ratMin (ratPow (1/10) 1) 30) = 1/2
    rw [show ratPow ((1 : ℚ)/10) 1 = 1/10 from by simp [ratPow]]
    rw [show ratMin ((1 : ℚ)/10) 30 = 1/10 from if_pos (by norm_num)]
    exact if_pos (by norm_num)
  · rw [show ratPow ((1 : ℚ)/10) 1 = 1/10 from by simp [ratPow]]
    rw [show ratMin ((1 : ℚ)/10) 30 = 1/10 from if_pos (by norm_num)]
    norm_num

/-- C9 amended: for one page query, the client retries the same query up to
`max_retries` times, sleeping `max(0.5, min(backoff_base ** attempt,
backoff_max))` (optionally jittered) before retry number `attempt`; if every
attempt up to `max_retries` fails it re-raises the last underlying
transport/parse error verbatim (no typed window-identifying error), and on
the first success it returns that page's records in full — no records are
silently skipped. -/
theorem retry_policy (c : OAIConfig) (q : OAIQuery)
    (oracle : OAIQuery → Nat → Except String OAIPage) :
    (∀ errs : Nat → String,
      (∀ k, k ≤ c.max_retries → oracle q k = Except.error (errs k)) →
      fetchWithRetry c oracle q =
        (Except.error (errs c.max_retries),
         (List.range c.max_retries).map (fun i => sleepDuration c (i + 1)))) ∧
    (∀ k p, k ≤ c.max_retries →
      (∀ j, j < k → ∃ e, oracle q j = Except.error e) →
      oracle q k = Except.ok p →
      fetchWithRetry c oracle q =
        (Except.ok p, (List.range k).map (fun i => sleepDuration c (i + 1)))) := by
  constructor
  · intro errs h
    have hmain := fetchLoop_all_fail c oracle q errs c.max_retries 0
      (fun k hk1 hk2 => h k (by omega))
    rw [fetchWithRetry, hmain, sleepsFrom_eq]
    refine congrArg₂ Prod.mk (congrArg Except.error (congrArg errs (by omega))) ?_
    refine List.map_congr_left ?_
    intro i _
    exact congrArg (sleepDuration c) (by omega)
  · intro k p hk hfails hok
    have hmain := fetchLoop_first_ok c oracle q p k c.max_retries 0 hk
      (fun j hj1 hj2 => hfails j (by omega))
      (by rw [show 0 + k = k from by omega]; exact hok)
    rw [fetchWithRetry, hmain, sleepsFrom_eq]
    refine congrArg₂ Prod.mk rfl ?_
    refine List.map_congr_left ?_
    intro i _
    exact congrArg (sleepDuration c) (by omega)

/-- Witness for C9 amended: exhausting retries with a constant connection
error re-raises that error after the two configured backoff sleeps. -/
theorem retry_policy_witness :
    fetchWithRetry ⟨2, 1/10, 30⟩ (fun _ _ => Except.error "connection refused")
        ⟨⟨2024, 1, 1⟩, ⟨2024, 1, 3⟩, "cs", none⟩ =
      (Except.error "connection refused",
       (List.range 2).map (fun i => sleepDuration ⟨2, 1/10, 30⟩ (i + 1))) :=
  (retry_policy ⟨2, 1/10, 30⟩ ⟨⟨2024, 1, 1⟩, ⟨2024, 1, 3⟩, "cs", none⟩
      (fun _ _ => Except.error "connection refused")).1
    (fun _ => "connection refused") (fun _ _ => rfl)
